import Mathlib

/-
Shallow embedding of the Truco rules engine in src/Old/truco-app.tsx.

Conventions of the embedding:
* The four suit strings become the four constructors of `Suit`; a card is a
  `(suit, value)` record, with value a natural number (the Spanish deck uses
  1..7 and 10..12; other values are representable and rank as -1, see
  `getCardRank`).
* JavaScript's `Array.prototype.findIndex` (first matching index, -1 when no
  match) is embedded with `List.findIdx?`, mapping `none` to -1.
* JavaScript's stable comparator sorts are embedded with `List.insertionSort`
  (stable insertion sort); the ranking keys involved are distinct for distinct
  deck cards, so any stable sort yields the same list as the source's sort.
* The React component's hook state becomes the record `GameSt`; each handler
  becomes a function `GameSt → GameSt` (state at the handler's invocation in,
  state after all of its `set*` calls out).  Reads of hook variables inside
  one handler body refer to the state at entry, exactly as the JavaScript
  `const` bindings do: in particular `evaluateRound` reads `rounds`,
  `playerScore` and `opponentScore` as they were when it was invoked, even in
  callbacks that run after its own `set*` calls.  The presentation-only
  `message` string is not modelled.
-/

inductive Suit where
  | espadas
  | bastos
  | oros
  | copas
deriving DecidableEq, Repr

structure Card where
  suit : Suit
  value : Nat
deriving DecidableEq, Repr

/-- Source line 7: `const SUITS = ['espadas', 'bastos', 'oros', 'copas']`. -/
def SUITS : List Suit := [.espadas, .bastos, .oros, .copas]

/-- Source line 8: `const CARD_VALUES = [1, 2, 3, 4, 5, 6, 7, 10, 11, 12]`. -/
def CARD_VALUES : List Nat := [1, 2, 3, 4, 5, 6, 7, 10, 11, 12]

/-- Source lines 11-44: the fixed strength table `CARD_RANKING`
(highest to lowest), transcribed entry by entry. -/
def CARD_RANKING : List Card := [
  ⟨.espadas, 1⟩,  -- Ace of Swords
  ⟨.bastos, 1⟩,   -- Ace of Clubs
  ⟨.espadas, 7⟩,  -- Seven of Swords
  ⟨.oros, 7⟩,     -- Seven of Gold
  -- All 3s
  ⟨.espadas, 3⟩, ⟨.bastos, 3⟩,
  ⟨.oros, 3⟩, ⟨.copas, 3⟩,
  -- All 2s
  ⟨.espadas, 2⟩, ⟨.bastos, 2⟩,
  ⟨.oros, 2⟩, ⟨.copas, 2⟩,
  -- Remaining Aces
  ⟨.oros, 1⟩, ⟨.copas, 1⟩,
  -- All Kings (12)
  ⟨.espadas, 12⟩, ⟨.bastos, 12⟩,
  ⟨.oros, 12⟩, ⟨.copas, 12⟩,
  -- All Knights (11)
  ⟨.espadas, 11⟩, ⟨.bastos, 11⟩,
  ⟨.oros, 11⟩, ⟨.copas, 11⟩,
  -- All Jacks (10)
  ⟨.espadas, 10⟩, ⟨.bastos, 10⟩,
  ⟨.oros, 10⟩, ⟨.copas, 10⟩,
  -- Remaining 7s
  ⟨.copas, 7⟩, ⟨.bastos, 7⟩,
  -- All 6s
  ⟨.espadas, 6⟩, ⟨.bastos, 6⟩,
  ⟨.oros, 6⟩, ⟨.copas, 6⟩,
  -- All 5s
  ⟨.espadas, 5⟩, ⟨.bastos, 5⟩,
  ⟨.oros, 5⟩, ⟨.copas, 5⟩,
  -- All 4s
  ⟨.espadas, 4⟩, ⟨.bastos, 4⟩,
  ⟨.oros, 4⟩, ⟨.copas, 4⟩]

/-- Source lines 83-91: `createDeck` pushes every `(suit, value)` pair,
suit-major, value-minor. -/
def createDeck : List Card :=
  SUITS.flatMap (fun suit => CARD_VALUES.map (fun value => ⟨suit, value⟩))

/-- Source lines 102-106: `getCardRank` is `CARD_RANKING.findIndex` on
`(suit, value)` equality; JavaScript's `findIndex` yields -1 when no entry
matches. -/
def getCardRank (card : Card) : Int :=
  match CARD_RANKING.findIdx?
      (fun rankedCard => rankedCard.suit == card.suit && rankedCard.value == card.value) with
  | some i => (i : Int)
  | none => -1

/-- Source lines 108-115: `compareCards`; lower rank index means higher
strength; 1 means card1 wins, -1 means card2 wins, 0 means tie. -/
def compareCards (card1 card2 : Card) : Int :=
  let rank1 := getCardRank card1
  let rank2 := getCardRank card2
  if rank1 < rank2 then 1
  else if rank1 > rank2 then -1
  else 0

/-- Source lines 171-172 and 178-179: for the Envido computation a card
valued at most 7 counts as its value, face cards (10/11/12) count as 0. -/
def envidoCardValue (value : Nat) : Nat :=
  if value ≤ 7 then value else 0

/-- Source lines 168-180: the per-suit group of substituted values that
`calculateEnvidoPoints` builds for one hand (`playerSuits[suit]`), in hand
order. -/
def envidoSuitValues (cards : List Card) (suit : Suit) : List Nat :=
  (cards.filter (fun card => card.suit == suit)).map (fun card => envidoCardValue card.value)

/-- Source lines 184-191: for a suit whose group has at least two cards,
sort the substituted values in descending order and score
`20 + sortedValues[0] + sortedValues[1]`; a suit with fewer than two cards
contributes nothing (0, the comparison base of the running maximum). -/
def envidoSuitScore (cards : List Card) (suit : Suit) : Nat :=
  let values := envidoSuitValues cards suit
  if 2 ≤ values.length then
    let sortedValues := values.insertionSort (fun a b => a ≥ b)
    20 + sortedValues.getD 0 0 + sortedValues.getD 1 0
  else 0

/-- Source lines 166-219: `calculateEnvidoPoints` for one hand (the source
runs the identical block once for the player's cards and once for the
opponent's).  The running maximum over the suit groups starts at 0; if it is
still 0 afterwards (no suit holds two cards) the highest single card value
at most 7 is used instead. -/
def calculateEnvidoPoints (cards : List Card) : Nat :=
  let highest := (SUITS.map (envidoSuitScore cards)).foldl max 0
  if highest = 0 then
    ((cards.filter (fun card => decide (card.value ≤ 7))).map (fun card => card.value)).foldl max 0
  else highest

/-- Source lines 240-256: `playOpponentCard`, as a function of the
opponent's hand and the card the player laid on the table
(`roundCards.player`).  The hand is sorted ascending by rank index (strongest
first, since lower index is stronger) and then reversed, so the scan runs
from the weakest card to the strongest; the first card that beats the table
card is played, otherwise `sortedHand[sortedHand.length - 1]` — the last
element of the reversed array.  `none` corresponds to the `undefined` lookup
on an empty hand. -/
def playOpponentCard (opponentHand : List Card) (playerCard : Card) : Option Card :=
  let sortedHand :=
    (opponentHand.insertionSort (fun a b => getCardRank a ≤ getCardRank b)).reverse
  match sortedHand.find? (fun card => decide (compareCards card playerCard > 0)) with
  | some card => some card
  | none => sortedHand.getLast?

/-- Source line 126: the `gameState` hook values
(dealing, playing, roundEnd, gameEnd). -/
inductive GState where
  | dealing
  | playing
  | roundEnd
  | gameEnd
deriving DecidableEq, Repr

/-- Source lines 279-291: the possible values of a recorded round's
`winner` field. -/
inductive RWinner where
  | player
  | opponent
  | tie
deriving DecidableEq, Repr

/-- Source lines 294-298: one entry of the `rounds` record. -/
structure TrickRec where
  playerCard : Card
  opponentCard : Card
  winner : RWinner
deriving DecidableEq, Repr

/-- Source lines 118-135: the hook state of the `TrucoGame` component
(presentation-only fields — `message`, `showRankings`, `showAdvice`,
`cardExplanation`, and the undealt remainder `deck` — are not modelled). -/
structure GameSt where
  playerHand : List Card
  opponentHand : List Card
  playerScore : Nat
  opponentScore : Nat
  roundCardsPlayer : Option Card
  roundCardsOpponent : Option Card
  rounds : List TrickRec
  currentRound : Nat
  gameState : GState
  truco : Bool
  trucoValue : Nat
  envido : Bool
  envidoPointsPlayer : Nat
  envidoPointsOpponent : Nat
  roundWinsPlayer : Nat
  roundWinsOpponent : Nat
deriving DecidableEq, Repr

/-- Source lines 221-238: `playCard`.  The only guard is
`if (gameState !== 'playing') return;` — there is no check that the card is
in the player's hand nor that the player slot is empty.  The hand is filtered
by `(suit, value)` inequality and the card is laid in the player slot.  (The
opponent's reply is a separate, later invocation.) -/
def playCard (s : GameSt) (card : Card) : GameSt :=
  if s.gameState = GState.playing then
    { s with
      playerHand := s.playerHand.filter
        (fun c => !(c.suit == card.suit && c.value == card.value)),
      roundCardsPlayer := some card }
  else s

/-- Source lines 275-291: the round winner computed from
`compareCards(roundCards.player, opponentCard)`. -/
def roundWinnerOf (playerCard opponentCard : Card) : RWinner :=
  let result := compareCards playerCard opponentCard
  if result > 0 then RWinner.player
  else if result < 0 then RWinner.opponent
  else RWinner.tie

/-- Source lines 275-359: `evaluateRound`.  Reads of `rounds`, `playerHand`,
`opponentHand`, `currentRound`, `playerScore` and `opponentScore` are the
values at the function's invocation (JavaScript `const` bindings of the
defining render): in particular the first-win tie-break scans the rounds
recorded *before* this trick, and the game-end check at lines 342-348
compares the scores as they were *before* this hand's points were awarded.
When the player slot is empty the source would dereference `null`
(`getCardRank(null)`); that branch returns the state unchanged here and is
never reached in play. -/
def evaluateRound (s : GameSt) (opponentCard : Card) : GameSt :=
  match s.roundCardsPlayer with
  | none => s
  | some playerCard =>
    let result := compareCards playerCard opponentCard
    let newWinsPlayer := if result > 0 then s.roundWinsPlayer + 1 else s.roundWinsPlayer
    let newWinsOpponent := if result < 0 then s.roundWinsOpponent + 1 else s.roundWinsOpponent
    let s1 : GameSt :=
      { s with
        rounds := s.rounds ++ [⟨playerCard, opponentCard, roundWinnerOf playerCard opponentCard⟩],
        roundWinsPlayer := newWinsPlayer,
        roundWinsOpponent := newWinsOpponent,
        roundCardsPlayer := none,
        roundCardsOpponent := none }
    if newWinsPlayer ≥ 2 ∨ newWinsOpponent ≥ 2 ∨
        (s.playerHand = [] ∧ s.opponentHand = []) ∨ s.currentRound ≥ 3 then
      let s2 : GameSt :=
        if newWinsPlayer > newWinsOpponent then
          { s1 with playerScore := s1.playerScore + s.trucoValue }
        else if newWinsPlayer < newWinsOpponent then
          { s1 with opponentScore := s1.opponentScore + s.trucoValue }
        else
          -- ties are resolved by the first non-tied round of the entry-state
          -- record (the just-played trick is not in the `rounds` binding)
          match s.rounds.find? (fun r => !(r.winner == RWinner.tie)) with
          | some firstWin =>
            if firstWin.winner = RWinner.player then
              { s1 with playerScore := s1.playerScore + s.trucoValue }
            else
              { s1 with opponentScore := s1.opponentScore + s.trucoValue }
          | none => s1
      -- lines 341-352: the delayed game-end check reads the entry scores
      if s.playerScore ≥ 15 ∨ s.opponentScore ≥ 15 then
        { s2 with gameState := GState.gameEnd }
      else
        { s2 with gameState := GState.roundEnd }
    else
      { s1 with currentRound := s.currentRound + 1, gameState := GState.playing }

/-- Source lines 361-382: `callTruco`.  A first call sets the flag and value
2; later calls increment the value, but `if (newValue > 4) return;` drops a
fourth call silently, leaving the state untouched. -/
def callTruco (s : GameSt) : GameSt :=
  if s.truco then
    let newValue := s.trucoValue + 1
    if newValue > 4 then s
    else { s with trucoValue := newValue }
  else { s with truco := true, trucoValue := 2 }

/-- Source lines 384-411: `callEnvido`.  A repeat call returns at once;
otherwise the flag is set and the stored Envido points decide the award:
strictly higher player points give the player 2, strictly lower give the
opponent 2, and a tie goes to the opponent (the fixed dealer). -/
def callEnvido (s : GameSt) : GameSt :=
  if s.envido then s
  else
    let s1 : GameSt := { s with envido := true }
    if s.envidoPointsPlayer > s.envidoPointsOpponent then
      { s1 with playerScore := s1.playerScore + 2 }
    else if s.envidoPointsPlayer < s.envidoPointsOpponent then
      { s1 with opponentScore := s1.opponentScore + 2 }
    else
      { s1 with opponentScore := s1.opponentScore + 2 }

/-- Source lines 615 and 625-631: the Envido button is rendered only while
`gameState === 'playing'` with an empty player slot, and is disabled by
`envido || currentRound > 1`; this predicate says when a `callEnvido`
invocation is reachable from the interface. -/
def envidoCallEnabled (s : GameSt) : Bool :=
  s.gameState == GState.playing && s.roundCardsPlayer == none &&
    !(s.envido || decide (s.currentRound > 1))

/-- Helper for stating the trick-win bookkeeping: how many recorded rounds a
given side has won. -/
def countWins (w : RWinner) (rounds : List TrickRec) : Nat :=
  (rounds.filter (fun r => r.winner == w)).length

/-- Helper for stating the hand-winner rule: the full trick record once the
current trick (player card `pc`, opponent card `oc`) has been appended,
exactly as `evaluateRound` records it. -/
def fullRecord (s : GameSt) (pc oc : Card) : List TrickRec :=
  s.rounds ++ [⟨pc, oc, roundWinnerOf pc oc⟩]

/-- A state one trick away from the player's second trick win, with the
player's match score at 14: the hand about to be won would lift it to 15. -/
def stateAt14 : GameSt :=
  { playerHand := [⟨.oros, 5⟩]
    opponentHand := [⟨.oros, 6⟩]
    playerScore := 14
    opponentScore := 0
    roundCardsPlayer := some ⟨.espadas, 1⟩
    roundCardsOpponent := some ⟨.copas, 4⟩
    rounds := [⟨⟨.bastos, 1⟩, ⟨.copas, 5⟩, RWinner.player⟩]
    currentRound := 2
    gameState := GState.playing
    truco := false
    trucoValue := 1
    envido := false
    envidoPointsPlayer := 0
    envidoPointsOpponent := 0
    roundWinsPlayer := 1
    roundWinsOpponent := 0 }

/-- A playing-phase state holding only the ace of espadas, no card laid. -/
def stateOneCard : GameSt :=
  { playerHand := [⟨.espadas, 1⟩]
    opponentHand := [⟨.oros, 6⟩]
    playerScore := 0
    opponentScore := 0
    roundCardsPlayer := none
    roundCardsOpponent := none
    rounds := []
    currentRound := 1
    gameState := GState.playing
    truco := false
    trucoValue := 1
    envido := false
    envidoPointsPlayer := 0
    envidoPointsOpponent := 0
    roundWinsPlayer := 0
    roundWinsOpponent := 0 }

/-- The same state with the player slot already occupied. -/
def stateSlotFilled : GameSt :=
  { stateOneCard with
    playerHand := [⟨.oros, 5⟩]
    roundCardsPlayer := some ⟨.espadas, 1⟩ }

/-- Iterated `callTruco`, for the claim about arbitrary call sequences. -/
def iterCallTruco : Nat → GameSt → GameSt
  | 0, s => s
  | n + 1, s => callTruco (iterCallTruco n s)

/-- A freshly dealt state: no calls yet, level 1. -/
def stateFresh : GameSt :=
  { playerHand := []
    opponentHand := []
    playerScore := 0
    opponentScore := 0
    roundCardsPlayer := none
    roundCardsOpponent := none
    rounds := []
    currentRound := 1
    gameState := GState.playing
    truco := false
    trucoValue := 1
    envido := false
    envidoPointsPlayer := 0
    envidoPointsOpponent := 0
    roundWinsPlayer := 0
    roundWinsOpponent := 0 }

/-- A fresh playing-phase state whose stored Envido points are 27 for the
player and 20 for the opponent. -/
def stateEnvido : GameSt :=
  { stateFresh with envidoPointsPlayer := 27, envidoPointsOpponent := 20 }

/-- A third-trick state whose first two recorded tricks were a tie and a
player win, with the win counters matching the record; the trick about to be
resolved (copas-4 against espadas-7) goes to the opponent, producing the
trick outcomes [Tie, PlayerWin, OpponentWin]. -/
def stateTieBreak : GameSt :=
  { playerHand := []
    opponentHand := []
    playerScore := 0
    opponentScore := 0
    roundCardsPlayer := some ⟨.copas, 4⟩
    roundCardsOpponent := some ⟨.espadas, 7⟩
    rounds := [⟨⟨.oros, 5⟩, ⟨.oros, 5⟩, RWinner.tie⟩,
               ⟨⟨.espadas, 1⟩, ⟨.copas, 7⟩, RWinner.player⟩]
    currentRound := 3
    gameState := GState.playing
    truco := false
    trucoValue := 1
    envido := false
    envidoPointsPlayer := 0
    envidoPointsOpponent := 0
    roundWinsPlayer := 1
    roundWinsOpponent := 0 }

/- ### Shared helper lemmas -/

lemma card_ranking_perm_deck : CARD_RANKING.Perm createDeck := by decide

lemma mem_card_ranking_iff {c : Card} : c ∈ CARD_RANKING ↔ c ∈ createDeck :=
  card_ranking_perm_deck.mem_iff

lemma deck_rank_nonneg : ∀ c ∈ createDeck, 0 ≤ getCardRank c := by decide

lemma card_beq_eq (a b : Card) :
    (a.suit == b.suit && a.value == b.value) = true ↔ a = b := by
  constructor
  · intro h
    have h1 := (Bool.and_eq_true _ _).mp h
    cases a; cases b
    simp only at h1
    have hs := eq_of_beq h1.1
    have hv := eq_of_beq h1.2
    simp [hs, hv]
  · intro h
    subst h
    simp

lemma findIdx?_eq_none_of_all_false {α : Type} (p : α → Bool) :
    ∀ l : List α, (∀ x ∈ l, p x = false) → l.findIdx? p = none := by
  intro l
  induction l with
  | nil => intro _; rfl
  | cons a t ih =>
    intro h
    have ha : p a = false := h a (List.mem_cons_self a t)
    have ht := ih (fun x hx => h x (List.mem_cons_of_mem a hx))
    simp [List.findIdx?_cons, ha, ht]

lemma getCardRank_eq_neg_one {c : Card} (h : c ∉ createDeck) :
    getCardRank c = -1 := by
  have hmem : c ∉ CARD_RANKING := fun hc => h (mem_card_ranking_iff.mp hc)
  have hall : ∀ x ∈ CARD_RANKING,
      (x.suit == c.suit && x.value == c.value) = false := by
    intro x hx
    by_contra hne
    have : (x.suit == c.suit && x.value == c.value) = true := by
      revert hne
      cases (x.suit == c.suit && x.value == c.value) <;> simp
    exact hmem ((card_beq_eq x c).mp this ▸ hx)
  unfold getCardRank
  rw [findIdx?_eq_none_of_all_false _ _ hall]

/- ### Claim theorems -/

/-- C1: the `CARD_RANKING` table holds exactly one entry for each of the 40
deck cards, with no duplicates and no gaps, in exactly the claimed
strongest-to-weakest order, and `getCardRank` is a bijection from the 40 deck
cards onto [0, 39] (stated as: the ranks of the deck cards are a permutation
of 0..39). -/
theorem C1_card_ranking_bijection :
    CARD_RANKING.length = 40 ∧ CARD_RANKING.Nodup ∧
    createDeck.length = 40 ∧ createDeck.Nodup ∧
    CARD_RANKING.Perm createDeck ∧
    (createDeck.map getCardRank).Perm ((List.range 40).map (fun n => (n : Int))) ∧
    getCardRank ⟨.espadas, 1⟩ = 0 ∧ getCardRank ⟨.bastos, 1⟩ = 1 ∧
    getCardRank ⟨.espadas, 7⟩ = 2 ∧ getCardRank ⟨.oros, 7⟩ = 3 ∧
    getCardRank ⟨.espadas, 3⟩ = 4 ∧ getCardRank ⟨.bastos, 3⟩ = 5 ∧
    getCardRank ⟨.oros, 3⟩ = 6 ∧ getCardRank ⟨.copas, 3⟩ = 7 ∧
    getCardRank ⟨.espadas, 2⟩ = 8 ∧ getCardRank ⟨.bastos, 2⟩ = 9 ∧
    getCardRank ⟨.oros, 2⟩ = 10 ∧ getCardRank ⟨.copas, 2⟩ = 11 ∧
    getCardRank ⟨.oros, 1⟩ = 12 ∧ getCardRank ⟨.copas, 1⟩ = 13 ∧
    getCardRank ⟨.espadas, 12⟩ = 14 ∧ getCardRank ⟨.bastos, 12⟩ = 15 ∧
    getCardRank ⟨.oros, 12⟩ = 16 ∧ getCardRank ⟨.copas, 12⟩ = 17 ∧
    getCardRank ⟨.espadas, 11⟩ = 18 ∧ getCardRank ⟨.bastos, 11⟩ = 19 ∧
    getCardRank ⟨.oros, 11⟩ = 20 ∧ getCardRank ⟨.copas, 11⟩ = 21 ∧
    getCardRank ⟨.espadas, 10⟩ = 22 ∧ getCardRank ⟨.bastos, 10⟩ = 23 ∧
    getCardRank ⟨.oros, 10⟩ = 24 ∧ getCardRank ⟨.copas, 10⟩ = 25 ∧
    getCardRank ⟨.copas, 7⟩ = 26 ∧ getCardRank ⟨.bastos, 7⟩ = 27 ∧
    getCardRank ⟨.espadas, 6⟩ = 28 ∧ getCardRank ⟨.bastos, 6⟩ = 29 ∧
    getCardRank ⟨.oros, 6⟩ = 30 ∧ getCardRank ⟨.copas, 6⟩ = 31 ∧
    getCardRank ⟨.espadas, 5⟩ = 32 ∧ getCardRank ⟨.bastos, 5⟩ = 33 ∧
    getCardRank ⟨.oros, 5⟩ = 34 ∧ getCardRank ⟨.copas, 5⟩ = 35 ∧
    getCardRank ⟨.espadas, 4⟩ = 36 ∧ getCardRank ⟨.bastos, 4⟩ = 37 ∧
    getCardRank ⟨.oros, 4⟩ = 38 ∧ getCardRank ⟨.copas, 4⟩ = 39 := by
  decide

/-- C9: on the 40 deck cards, `compareCards` ties exactly on identical cards,
is antisymmetric (`compareCards a b = 1 ↔ compareCards b a = -1`), and the
card with the lower rank index always wins. -/
theorem C9_compare_antisymm :
    ∀ a ∈ createDeck, compareCards a a = 0 ∧
      ∀ b ∈ createDeck, a ≠ b →
        ((compareCards a b = 1 ↔ compareCards b a = -1) ∧
          (compareCards a b = 1 ↔ getCardRank a < getCardRank b)) := by
  decide

/-- Witness for C9 at the concrete pair espadas-1, copas-4. -/
theorem C9_compare_antisymm_witness :
    compareCards ⟨.espadas, 1⟩ ⟨.espadas, 1⟩ = 0 ∧
      (compareCards ⟨.espadas, 1⟩ ⟨.copas, 4⟩ = 1 ↔
        compareCards ⟨.copas, 4⟩ ⟨.espadas, 1⟩ = -1) := by
  have h := C9_compare_antisymm ⟨.espadas, 1⟩ (by decide)
  exact ⟨h.1, (h.2 ⟨.copas, 4⟩ (by decide) (by decide)).1⟩

/-- C2 (code bug): when no card in hand beats the table card, the source's
own comments (lines 241 and 253) and the spec say the opponent plays the
weakest card, but `sortedHand[sortedHand.length - 1]` is the last element of
the weakest-to-strongest array, i.e. the strongest card.  Against table card
espadas-1 (unbeatable) with hand [copas-4, espadas-3], the code plays
espadas-3 — the stronger of the two (its rank index is lower than copas-4's)
— instead of the weakest card copas-4.  The winning branch does behave as
claimed: against copas-4 the hand [espadas-1, oros-6, copas-2] yields the
weakest winner oros-6. -/
theorem C2_opponent_fallback_plays_strongest :
    playOpponentCard [⟨.copas, 4⟩, ⟨.espadas, 3⟩] ⟨.espadas, 1⟩ = some ⟨.espadas, 3⟩ ∧
    getCardRank ⟨.espadas, 3⟩ < getCardRank ⟨.copas, 4⟩ ∧
    playOpponentCard [⟨.espadas, 1⟩, ⟨.oros, 6⟩, ⟨.copas, 2⟩] ⟨.copas, 4⟩
      = some ⟨.oros, 6⟩ := by
  decide

/-- C4 (code bug): the game-end check at source lines 342-348 reads the
scores captured before the hand's points were awarded (the `setTimeout`
callback closes over the render's `playerScore`/`opponentScore` constants,
which the functional `setPlayerScore` update cannot change).  Concretely,
from a 14-point state the player wins the hand, the score becomes exactly
15, yet the engine stays in `roundEnd` instead of entering `gameEnd` —
contradicting the spec's rule that a score reaching 15 ends the match at
that point. -/
theorem C4_stale_score_no_game_end :
    (evaluateRound stateAt14 ⟨.copas, 4⟩).playerScore = 15 ∧
    (evaluateRound stateAt14 ⟨.copas, 4⟩).gameState = GState.roundEnd ∧
    (evaluateRound stateAt14 ⟨.copas, 4⟩).gameState ≠ GState.gameEnd := by
  decide

/-- C6 counterexample: `playCard` accepts a card that is not in the player's
hand (copas-4 is not in [espadas-1]) and still mutates the state — the
phantom card lands in the player slot — and likewise accepts a play while
the player slot is already filled, overwriting it; neither call is rejected
and neither leaves the state unchanged, so the claimed invalid-move
rejection is false. -/
theorem C6_counterexample :
    ((⟨.copas, 4⟩ : Card) ∉ stateOneCard.playerHand ∧
      playCard stateOneCard ⟨.copas, 4⟩ ≠ stateOneCard ∧
      (playCard stateOneCard ⟨.copas, 4⟩).roundCardsPlayer = some ⟨.copas, 4⟩) ∧
    (stateSlotFilled.roundCardsPlayer ≠ none ∧
      playCard stateSlotFilled ⟨.oros, 5⟩ ≠ stateSlotFilled ∧
      (playCard stateSlotFilled ⟨.oros, 5⟩).roundCardsPlayer = some ⟨.oros, 5⟩) := by
  decide

/-- C6 as amended: `playCard` validates only the phase.  Outside the
`playing` phase it silently returns the state unchanged (no error); in the
`playing` phase it never rejects anything: the card is laid in the player
slot unconditionally (even over a filled slot), a card not in the hand
leaves the hand unchanged while still being laid, and no error of any kind
is signalled. -/
theorem C6_playCard_unvalidated (s : GameSt) (c : Card) :
    (s.gameState ≠ GState.playing → playCard s c = s) ∧
    (s.gameState = GState.playing →
      (playCard s c).roundCardsPlayer = some c ∧
      (c ∉ s.playerHand → (playCard s c).playerHand = s.playerHand) ∧
      (playCard s c).playerScore = s.playerScore ∧
      (playCard s c).opponentScore = s.opponentScore ∧
      (playCard s c).rounds = s.rounds ∧
      (playCard s c).truco = s.truco ∧
      (playCard s c).trucoValue = s.trucoValue ∧
      (playCard s c).envido = s.envido ∧
      (playCard s c).roundWinsPlayer = s.roundWinsPlayer ∧
      (playCard s c).roundWinsOpponent = s.roundWinsOpponent) := by
  constructor
  · intro h
    unfold playCard
    rw [if_neg h]
  · intro h
    unfold playCard
    rw [if_pos h]
    refine ⟨rfl, ?_, rfl, rfl, rfl, rfl, rfl, rfl, rfl, rfl⟩
    intro hc
    simp only
    apply List.filter_eq_self.mpr
    intro a ha
    have hne : (a.suit == c.suit && a.value == c.value) = false := by
      cases hb : (a.suit == c.suit && a.value == c.value) with
      | true => exact absurd (((card_beq_eq a c).mp hb) ▸ ha) hc
      | false => rfl
    rw [hne]
    rfl

/-- Witness for C6's amended statement: playing the out-of-hand copas-4 in
the playing phase lays it in the slot and leaves the hand as it was. -/
theorem C6_playCard_unvalidated_witness :
    (playCard stateOneCard ⟨.copas, 4⟩).roundCardsPlayer = some ⟨.copas, 4⟩ ∧
    (playCard stateOneCard ⟨.copas, 4⟩).playerHand = [⟨.espadas, 1⟩] := by
  have h := (C6_playCard_unvalidated stateOneCard ⟨.copas, 4⟩).2 rfl
  exact ⟨h.1, (h.2.1 (by decide)).trans rfl⟩

lemma callTruco_value_bounds (s : GameSt)
    (h1 : 1 ≤ s.trucoValue) (h2 : s.trucoValue ≤ 4) :
    1 ≤ (callTruco s).trucoValue ∧ (callTruco s).trucoValue ≤ 4 := by
  unfold callTruco
  cases ht : s.truco with
  | false => simp [ht]
  | true =>
    simp only [ht, if_true]
    by_cases hv : s.trucoValue + 1 > 4
    · rw [if_pos hv]
      exact ⟨h1, h2⟩
    · rw [if_neg hv]
      constructor
      · show 1 ≤ s.trucoValue + 1
        omega
      · show s.trucoValue + 1 ≤ 4
        omega

/-- C7: from a fresh hand (`truco = false`, `trucoValue = 1`) three
`callTruco` calls escalate the level 1 → 2 → 3 → 4; a fourth call is
rejected — it returns the state completely unchanged (the source's
`if (newValue > 4) return;` is a silent early return, so no error value of
any kind accompanies the rejection) — and after any number of calls the
level stays within {1, 2, 3, 4}. -/
theorem C7_truco_escalation (s : GameSt)
    (h1 : s.truco = false) (h2 : s.trucoValue = 1) :
    (callTruco s).truco = true ∧
    (callTruco s).trucoValue = 2 ∧
    (callTruco (callTruco s)).trucoValue = 3 ∧
    (callTruco (callTruco (callTruco s))).trucoValue = 4 ∧
    callTruco (callTruco (callTruco (callTruco s)))
      = callTruco (callTruco (callTruco s)) ∧
    ∀ n : Nat, 1 ≤ (iterCallTruco n s).trucoValue ∧
      (iterCallTruco n s).trucoValue ≤ 4 := by
  have e1 : callTruco s = { s with truco := true, trucoValue := 2 } := by
    unfold callTruco
    rw [if_neg (by rw [h1]; exact Bool.false_ne_true)]
  have e2 : callTruco (callTruco s)
      = { s with truco := true, trucoValue := 3 } := by
    rw [e1]
    unfold callTruco
    simp
  have e3 : callTruco (callTruco (callTruco s))
      = { s with truco := true, trucoValue := 4 } := by
    rw [e2]
    unfold callTruco
    simp
  have e4 : callTruco (callTruco (callTruco (callTruco s)))
      = { s with truco := true, trucoValue := 4 } := by
    rw [e3]
    unfold callTruco
    simp
  refine ⟨by rw [e1], by rw [e1], by rw [e2], by rw [e3], by rw [e4, e3], ?_⟩
  intro n
  induction n with
  | zero =>
    constructor
    · show 1 ≤ s.trucoValue
      omega
    · show s.trucoValue ≤ 4
      omega
  | succ k ih => exact callTruco_value_bounds _ ih.1 ih.2

/-- Witness for C7 at the fresh state, including the invariant at seven
iterated calls. -/
theorem C7_truco_escalation_witness :
    (callTruco stateFresh).trucoValue = 2 ∧
    (callTruco (callTruco (callTruco stateFresh))).trucoValue = 4 ∧
    callTruco (callTruco (callTruco (callTruco stateFresh)))
      = callTruco (callTruco (callTruco stateFresh)) ∧
    1 ≤ (iterCallTruco 7 stateFresh).trucoValue ∧
    (iterCallTruco 7 stateFresh).trucoValue ≤ 4 := by
  have h := C7_truco_escalation stateFresh rfl rfl
  exact ⟨h.2.1, h.2.2.2.1, h.2.2.2.2.1, (h.2.2.2.2.2 7).1, (h.2.2.2.2.2 7).2⟩

/-- C10: a `(suit, value)` pair outside the 40-card deck (for example a
value of 8 or 9) gets rank -1 from `getCardRank`, and `compareCards` then
declares it the winner against every deck card, in both argument orders;
the [0, 39] rank range holds only for the 40 deck cards. -/
theorem C10_out_of_deck_rank :
    ∀ c : Card, c ∉ createDeck →
      getCardRank c = -1 ∧
      ∀ d ∈ createDeck, compareCards c d = 1 ∧ compareCards d c = -1 := by
  intro c hc
  have hrc := getCardRank_eq_neg_one hc
  refine ⟨hrc, ?_⟩
  intro d hd
  have hd0 : 0 ≤ getCardRank d := deck_rank_nonneg d hd
  constructor
  · unfold compareCards
    simp only [hrc]
    rw [if_pos (by omega)]
  · unfold compareCards
    simp only [hrc]
    rw [if_neg (by omega), if_pos (by omega)]

/-- C8: `callEnvido` is single-shot — a repeat call returns the state
unchanged, and the interface guard makes a call reachable only with the flag
clear during the first trick of the hand (`currentRound ≤ 1`, before the
player lays a card, which is before the hand's Truco-level award can
happen).  On resolution, strictly higher player points award the player
exactly 2 match points at once; strictly lower or equal points award the
opponent (the fixed dealer) the 2 points; the Truco escalation state and
the recorded tricks are untouched, so the award is separate from the
hand's Truco-level award. -/
theorem C8_envido_single_shot (s : GameSt) :
    (s.envido = true → callEnvido s = s) ∧
    (envidoCallEnabled s = true →
      s.envido = false ∧ s.currentRound ≤ 1 ∧
      s.gameState = GState.playing ∧ s.roundCardsPlayer = none) ∧
    (s.envido = false →
      (callEnvido s).envido = true ∧
      (callEnvido s).truco = s.truco ∧
      (callEnvido s).trucoValue = s.trucoValue ∧
      (callEnvido s).rounds = s.rounds ∧
      (s.envidoPointsOpponent < s.envidoPointsPlayer →
        (callEnvido s).playerScore = s.playerScore + 2 ∧
        (callEnvido s).opponentScore = s.opponentScore) ∧
      (s.envidoPointsPlayer < s.envidoPointsOpponent →
        (callEnvido s).opponentScore = s.opponentScore + 2 ∧
        (callEnvido s).playerScore = s.playerScore) ∧
      (s.envidoPointsPlayer = s.envidoPointsOpponent →
        (callEnvido s).opponentScore = s.opponentScore + 2 ∧
        (callEnvido s).playerScore = s.playerScore)) := by
  refine ⟨?_, ?_, ?_⟩
  · intro h
    unfold callEnvido
    rw [if_pos h]
  · intro h
    unfold envidoCallEnabled at h
    simp only [Bool.and_eq_true, Bool.not_eq_true', Bool.or_eq_false_iff,
      beq_iff_eq, decide_eq_false_iff_not, not_lt] at h
    exact ⟨h.2.1, h.2.2, h.1.1, by
      cases ho : s.roundCardsPlayer with
      | none => rfl
      | some c =>
        rw [ho] at h
        exact absurd h.1.2 (by simp)⟩
  · intro h
    unfold callEnvido
    rw [if_neg (by rw [h]; exact Bool.false_ne_true)]
    refine ⟨?_, ?_, ?_, ?_, ?_, ?_, ?_⟩
    · split_ifs <;> rfl
    · split_ifs <;> rfl
    · split_ifs <;> rfl
    · split_ifs <;> rfl
    · intro hgt
      rw [if_pos hgt]
      exact ⟨rfl, rfl⟩
    · intro hlt
      rw [if_neg (by omega), if_pos hlt]
      exact ⟨rfl, rfl⟩
    · intro heq
      rw [if_neg (by omega), if_neg (by omega)]
      exact ⟨rfl, rfl⟩

/-- Witness for C8: at `stateEnvido` the call is enabled, resolves at once,
and awards the player exactly 2 points. -/
theorem C8_envido_single_shot_witness :
    (callEnvido stateEnvido).envido = true ∧
    (callEnvido stateEnvido).playerScore = 2 ∧
    (callEnvido stateEnvido).opponentScore = 0 ∧
    callEnvido (callEnvido stateEnvido) = callEnvido stateEnvido := by
  have h := (C8_envido_single_shot stateEnvido).2.2 rfl
  have haward := h.2.2.2.2.1 (by decide)
  refine ⟨h.1, haward.1.trans rfl, haward.2.trans rfl, ?_⟩
  exact (C8_envido_single_shot (callEnvido stateEnvido)).1 h.1

/-- Witness for C10 at the non-deck card espadas-8 against espadas-1. -/
theorem C10_out_of_deck_rank_witness :
    getCardRank ⟨.espadas, 8⟩ = -1 ∧
    compareCards ⟨.espadas, 8⟩ ⟨.espadas, 1⟩ = 1 ∧
    compareCards ⟨.espadas, 1⟩ ⟨.espadas, 8⟩ = -1 := by
  have h := C10_out_of_deck_rank ⟨.espadas, 8⟩ (by decide)
  exact ⟨h.1, (h.2 ⟨.espadas, 1⟩ (by decide)).1, (h.2 ⟨.espadas, 1⟩ (by decide)).2⟩

lemma countWins_append (w : RWinner) (rs : List TrickRec) (r : TrickRec) :
    countWins w (rs ++ [r]) = countWins w rs + (if r.winner = w then 1 else 0) := by
  unfold countWins
  rw [List.filter_append, List.length_append]
  congr 1
  by_cases h : r.winner = w
  · simp [h]
  · simp [h]

lemma countWins_eq_zero_of_all_tie (w : RWinner) (hw : w ≠ RWinner.tie)
    (rs : List TrickRec) (h : ∀ x ∈ rs, x.winner = RWinner.tie) :
    countWins w rs = 0 := by
  unfold countWins
  rw [List.length_eq_zero]
  rw [List.filter_eq_nil_iff]
  intro a ha
  rw [h a ha]
  simp
  intro heq
  exact hw heq.symm

lemma find?_nonTie_full (rs : List TrickRec) (r : TrickRec)
    (h : countWins RWinner.player (rs ++ [r]) = countWins RWinner.opponent (rs ++ [r])) :
    (rs ++ [r]).find? (fun x => !(x.winner == RWinner.tie))
      = rs.find? (fun x => !(x.winner == RWinner.tie)) := by
  rw [List.find?_append]
  cases hf : rs.find? (fun x => !(x.winner == RWinner.tie)) with
  | some x => rfl
  | none =>
    have hall : ∀ x ∈ rs, x.winner = RWinner.tie := by
      intro x hx
      have := List.find?_eq_none.mp hf x hx
      simpa using this
    have hp0 := countWins_eq_zero_of_all_tie RWinner.player (by simp) rs hall
    have ho0 := countWins_eq_zero_of_all_tie RWinner.opponent (by simp) rs hall
    rw [countWins_append, countWins_append, hp0, ho0] at h
    have htie : r.winner = RWinner.tie := by
      cases hr : r.winner with
      | player => rw [hr] at h; simp at h
      | opponent => rw [hr] at h; simp at h
      | tie => rfl
    simp [List.find?, htie]

/-- C3: when the hand completes (a side has at least 2 trick wins, or all
cards are played, or the third trick was just resolved): strictly more trick
wins award that side the current Truco level; equal trick wins fall back to
the first non-tied trick of the full record (the trick just resolved
included); an all-tied hand awards no points.  The hypotheses tie the
running win counters to the recorded rounds, as `evaluateRound` maintains
them. -/
theorem C3_hand_winner_rule (s : GameSt) (pc oc : Card)
    (hpc : s.roundCardsPlayer = some pc)
    (hwp : s.roundWinsPlayer = countWins RWinner.player s.rounds)
    (hwo : s.roundWinsOpponent = countWins RWinner.opponent s.rounds)
    (hdone : 2 ≤ countWins RWinner.player (fullRecord s pc oc) ∨
      2 ≤ countWins RWinner.opponent (fullRecord s pc oc) ∨
      (s.playerHand = [] ∧ s.opponentHand = []) ∨ 3 ≤ s.currentRound) :
    (evaluateRound s oc).rounds = fullRecord s pc oc ∧
    (countWins RWinner.opponent (fullRecord s pc oc)
        < countWins RWinner.player (fullRecord s pc oc) →
      (evaluateRound s oc).playerScore = s.playerScore + s.trucoValue ∧
      (evaluateRound s oc).opponentScore = s.opponentScore) ∧
    (countWins RWinner.player (fullRecord s pc oc)
        < countWins RWinner.opponent (fullRecord s pc oc) →
      (evaluateRound s oc).opponentScore = s.opponentScore + s.trucoValue ∧
      (evaluateRound s oc).playerScore = s.playerScore) ∧
    (countWins RWinner.player (fullRecord s pc oc)
        = countWins RWinner.opponent (fullRecord s pc oc) →
      (∀ r : TrickRec,
        (fullRecord s pc oc).find? (fun x => !(x.winner == RWinner.tie)) = some r →
        ((r.winner = RWinner.player →
          (evaluateRound s oc).playerScore = s.playerScore + s.trucoValue ∧
          (evaluateRound s oc).opponentScore = s.opponentScore) ∧
         (r.winner = RWinner.opponent →
          (evaluateRound s oc).opponentScore = s.opponentScore + s.trucoValue ∧
          (evaluateRound s oc).playerScore = s.playerScore))) ∧
      ((fullRecord s pc oc).find? (fun x => !(x.winner == RWinner.tie)) = none →
        (evaluateRound s oc).playerScore = s.playerScore ∧
        (evaluateRound s oc).opponentScore = s.opponentScore)) := by
  have hWP : (if compareCards pc oc > 0 then s.roundWinsPlayer + 1 else s.roundWinsPlayer)
      = countWins RWinner.player (fullRecord s pc oc) := by
    rw [hwp]
    unfold fullRecord
    rw [countWins_append]
    unfold roundWinnerOf
    by_cases h : compareCards pc oc > 0
    · simp [h]
    · by_cases h2 : compareCards pc oc < 0 <;> simp [h, h2]
  have hWO : (if compareCards pc oc < 0 then s.roundWinsOpponent + 1 else s.roundWinsOpponent)
      = countWins RWinner.opponent (fullRecord s pc oc) := by
    rw [hwo]
    unfold fullRecord
    rw [countWins_append]
    unfold roundWinnerOf
    by_cases h : compareCards pc oc < 0
    · have h2 : ¬ compareCards pc oc > 0 := by omega
      simp [h, h2]
    · by_cases h2 : compareCards pc oc > 0 <;> simp [h, h2]
  have hcond : ((if compareCards pc oc > 0 then s.roundWinsPlayer + 1 else s.roundWinsPlayer) ≥ 2 ∨
      (if compareCards pc oc < 0 then s.roundWinsOpponent + 1 else s.roundWinsOpponent) ≥ 2 ∨
      (s.playerHand = [] ∧ s.opponentHand = []) ∨ s.currentRound ≥ 3) := by
    rw [hWP, hWO]
    exact hdone
  refine ⟨?_, ?_, ?_, ?_⟩
  · simp only [evaluateRound, hpc]
    rw [if_pos hcond]
    split_ifs <;> try rfl
    all_goals
      rcases hf2 : s.rounds.find? (fun r => !(r.winner == RWinner.tie)) with _ | r <;>
        simp only [hf2] <;> (try split_ifs) <;> rfl
  · intro hgt
    simp only [evaluateRound, hpc]
    rw [if_pos hcond, hWP, hWO]
    rw [if_pos hgt]
    split_ifs <;> exact ⟨rfl, rfl⟩
  · intro hlt
    have hnot : ¬ (countWins RWinner.opponent (fullRecord s pc oc)
        < countWins RWinner.player (fullRecord s pc oc)) := by omega
    simp only [evaluateRound, hpc]
    rw [if_pos hcond, hWP, hWO]
    rw [if_neg hnot, if_pos hlt]
    split_ifs <;> exact ⟨rfl, rfl⟩
  · intro heq
    constructor
    · intro r hfr
      have heq' : countWins RWinner.player (s.rounds ++ [⟨pc, oc, roundWinnerOf pc oc⟩])
          = countWins RWinner.opponent (s.rounds ++ [⟨pc, oc, roundWinnerOf pc oc⟩]) := heq
      unfold fullRecord at hfr
      rw [find?_nonTie_full _ _ heq'] at hfr
      constructor
      · intro hw
        have hnot1 : ¬ (countWins RWinner.opponent (fullRecord s pc oc)
            < countWins RWinner.player (fullRecord s pc oc)) := by omega
        have hnot2 : ¬ (countWins RWinner.player (fullRecord s pc oc)
            < countWins RWinner.opponent (fullRecord s pc oc)) := by omega
        simp only [evaluateRound, hpc]
        rw [if_pos hcond, hWP, hWO]
        rw [if_neg hnot1, if_neg hnot2]
        simp only [hfr]
        rw [if_pos hw]
        split_ifs <;> exact ⟨rfl, rfl⟩
      · intro hw
        have hnot1 : ¬ (countWins RWinner.opponent (fullRecord s pc oc)
            < countWins RWinner.player (fullRecord s pc oc)) := by omega
        have hnot2 : ¬ (countWins RWinner.player (fullRecord s pc oc)
            < countWins RWinner.opponent (fullRecord s pc oc)) := by omega
        simp only [evaluateRound, hpc]
        rw [if_pos hcond, hWP, hWO]
        rw [if_neg hnot1, if_neg hnot2]
        simp only [hfr]
        have hwne : ¬ (r.winner = RWinner.player) := by
          rw [hw]
          exact fun hcontra => RWinner.noConfusion hcontra
        rw [if_neg hwne]
        split_ifs <;> exact ⟨rfl, rfl⟩
    · intro hfr
      have heq' : countWins RWinner.player (s.rounds ++ [⟨pc, oc, roundWinnerOf pc oc⟩])
          = countWins RWinner.opponent (s.rounds ++ [⟨pc, oc, roundWinnerOf pc oc⟩]) := heq
      unfold fullRecord at hfr
      rw [find?_nonTie_full _ _ heq'] at hfr
      have hnot1 : ¬ (countWins RWinner.opponent (fullRecord s pc oc)
          < countWins RWinner.player (fullRecord s pc oc)) := by omega
      have hnot2 : ¬ (countWins RWinner.player (fullRecord s pc oc)
          < countWins RWinner.opponent (fullRecord s pc oc)) := by omega
      simp only [evaluateRound, hpc]
      rw [if_pos hcond, hWP, hWO]
      rw [if_neg hnot1, if_neg hnot2]
      simp only [hfr]
      split_ifs <;> exact ⟨rfl, rfl⟩

/-- Witness for C3: with trick outcomes [Tie, PlayerWin, OpponentWin] the
trick wins are equal and the first non-tied trick (a player win) decides the
hand, so the player is awarded the Truco level (1 point). -/
theorem C3_hand_winner_rule_witness :
    (evaluateRound stateTieBreak ⟨.espadas, 7⟩).playerScore = 1 ∧
    (evaluateRound stateTieBreak ⟨.espadas, 7⟩).opponentScore = 0 := by
  have h := C3_hand_winner_rule stateTieBreak ⟨.copas, 4⟩ ⟨.espadas, 7⟩
    rfl (by decide) (by decide) (by decide)
  have h2 := (h.2.2.2 (by decide)).1
    ⟨⟨.espadas, 1⟩, ⟨.copas, 7⟩, RWinner.player⟩ (by decide)
  have h3 := h2.1 rfl
  exact ⟨h3.1.trans rfl, h3.2.trans rfl⟩

lemma envidoCardValue_pair {v1 v2 : Nat} (h : v1 ≠ v2) :
    envidoCardValue v1 + envidoCardValue v2 ≤ 13 := by
  unfold envidoCardValue
  split_ifs <;> omega

lemma envidoSuitValues_pairwise (cards : List Card) (hnd : cards.Nodup) (s : Suit) :
    (envidoSuitValues cards s).Pairwise (fun a b => a + b ≤ 13) := by
  unfold envidoSuitValues
  rw [List.pairwise_map]
  have hfil : (cards.filter (fun c => c.suit == s)).Nodup := hnd.filter _
  refine hfil.imp_of_mem ?_
  intro a b ha hb hne
  have hsa : a.suit = s := by simpa using (List.mem_filter.mp ha).2
  have hsb : b.suit = s := by simpa using (List.mem_filter.mp hb).2
  apply envidoCardValue_pair
  intro hv
  apply hne
  cases a
  cases b
  simp only at hsa hsb hv
  rw [hsa, hsb, hv]

lemma foldl_max_le (k : Nat) :
    ∀ (l : List Nat) (acc : Nat), acc ≤ k → (∀ x ∈ l, x ≤ k) → l.foldl max acc ≤ k := by
  intro l
  induction l with
  | nil =>
    intro acc h _
    simpa using h
  | cons a t ih =>
    intro acc h hall
    simp only [List.foldl_cons]
    refine ih _ (Nat.max_le.mpr ⟨h, hall a (List.mem_cons_self a t)⟩) ?_
    intro x hx
    exact hall x (List.mem_cons_of_mem a hx)

lemma envidoSuitScore_le (cards : List Card) (hnd : cards.Nodup) (s : Suit) :
    envidoSuitScore cards s ≤ 33 := by
  unfold envidoSuitScore
  by_cases hlen : 2 ≤ (envidoSuitValues cards s).length
  · rw [if_pos hlen]
    have hperm := List.perm_insertionSort (fun a b => a ≥ b) (envidoSuitValues cards s)
    have hpair : ((envidoSuitValues cards s).insertionSort
        (fun a b => a ≥ b)).Pairwise (fun a b => a + b ≤ 13) :=
      (hperm.pairwise_iff (by
        intro x y hxy
        have hxy2 : x + y ≤ 13 := hxy
        show y + x ≤ 13
        omega)).mpr
        (envidoSuitValues_pairwise cards hnd s)
    have hlen2 : 2 ≤ ((envidoSuitValues cards s).insertionSort (fun a b => a ≥ b)).length := by
      rw [hperm.length_eq]
      exact hlen
    rcases hsl : (envidoSuitValues cards s).insertionSort (fun a b => a ≥ b) with _ | ⟨a, _ | ⟨b, t⟩⟩
    · rw [hsl] at hlen2
      simp at hlen2
    · rw [hsl] at hlen2
      simp at hlen2
    · rw [hsl] at hpair
      have hab : a + b ≤ 13 :=
        (List.pairwise_cons.mp hpair).1 b (List.mem_cons_self b t)
      simp only [List.getD_cons_zero, List.getD_cons_succ]
      omega
  · rw [if_neg hlen]
    omega

lemma calculateEnvidoPoints_le (cards : List Card) (hnd : cards.Nodup) :
    calculateEnvidoPoints cards ≤ 33 := by
  unfold calculateEnvidoPoints
  by_cases h0 : (SUITS.map (envidoSuitScore cards)).foldl max 0 = 0
  · rw [if_pos h0]
    refine foldl_max_le 33 _ 0 (by omega) ?_
    intro x hx
    rcases List.mem_map.mp hx with ⟨c, hc, hcx⟩
    have : c.value ≤ 7 := by simpa using (List.mem_filter.mp hc).2
    omega
  · rw [if_neg h0]
    refine foldl_max_le 33 _ 0 (by omega) ?_
    intro x hx
    rcases List.mem_map.mp hx with ⟨su, _, hsx⟩
    rw [← hsx]
    exact envidoSuitScore_le cards hnd su

/-- C5: for a 3-card hand of pairwise-distinct deck cards the Envido score
is at most 33 (it is a natural number, so the claimed range [0, 33] holds),
and the three example hands score 29, 20 and 5 respectively. -/
theorem C5_envido_range_and_examples :
    (∀ c1 c2 c3 : Card, [c1, c2, c3].Nodup →
      c1 ∈ createDeck → c2 ∈ createDeck → c3 ∈ createDeck →
      calculateEnvidoPoints [c1, c2, c3] ≤ 33) ∧
    calculateEnvidoPoints [⟨.espadas, 3⟩, ⟨.espadas, 6⟩, ⟨.bastos, 2⟩] = 29 ∧
    calculateEnvidoPoints [⟨.oros, 10⟩, ⟨.oros, 11⟩, ⟨.copas, 4⟩] = 20 ∧
    calculateEnvidoPoints [⟨.espadas, 5⟩, ⟨.bastos, 2⟩, ⟨.oros, 10⟩] = 5 := by
  refine ⟨?_, by decide, by decide, by decide⟩
  intro c1 c2 c3 hnd _ _ _
  exact calculateEnvidoPoints_le _ hnd

/-- Witness for C5's universal part at the first example hand. -/
theorem C5_envido_range_and_examples_witness :
    calculateEnvidoPoints [⟨.espadas, 3⟩, ⟨.espadas, 6⟩, ⟨.bastos, 2⟩] ≤ 33 :=
  C5_envido_range_and_examples.1 ⟨.espadas, 3⟩ ⟨.espadas, 6⟩ ⟨.bastos, 2⟩
    (by decide) (by decide) (by decide) (by decide)
